import Mathlib

/-!
Verification development for the Toonmotion frame-processing pipeline
(`src/services/videoProcessor.ts` and the generator in `src/services/gemini.ts`).

Modelling conventions:
* Pixels are RGBA quadruples of naturals in 0..255; an image is a structure
  holding its dimensions and a pixel function, matching the flat RGBA buffer
  the code reads at offsets `i, i+1, i+2, i+3` with `x = (i/4) % width`,
  `y = (i/4) / width`.
* JavaScript numbers are embedded as rationals (`ℚ`) where fractional
  arithmetic matters and as naturals where the code manipulates integer
  pixel coordinates.  `Math.floor(w * 0.05)` is embedded as `w / 20` in `ℕ`:
  for all image widths the double-precision product rounds to a value whose
  floor equals the exact `⌊w/20⌋`.
* Browser/DOM effects that the code treats as always available
  (`getContext` succeeding, `toBlob` producing a blob, the external encoder
  libraries being loaded, the GIF worker-script fetch succeeding) are
  modelled as succeeding; claims about them are out of scope of the claims
  under verification.
-/

namespace Toonmotion

/-- One RGBA sample, channels in 0..255 as in a `Uint8ClampedArray`. -/
structure Pixel where
  r : ℕ
  g : ℕ
  b : ℕ
  a : ℕ
deriving DecidableEq

/-- A decoded raw frame: native dimensions plus the pixel grid, as obtained
from `ctx.getImageData` in `processFrameData` (videoProcessor.ts:23). -/
structure Image where
  width : ℕ
  height : ℕ
  px : ℕ → ℕ → Pixel

/-- Safety-margin width, videoProcessor.ts:36 `Math.floor(canvas.width * 0.05)`. -/
def Image.marginX (img : Image) : ℕ := img.width / 20

/-- Safety-margin height, videoProcessor.ts:37 `Math.floor(canvas.height * 0.05)`. -/
def Image.marginY (img : Image) : ℕ := img.height / 20

/-- The edge safety-crop test of videoProcessor.ts:44:
`x < marginX || x > canvas.width - marginX || y < marginY || y > canvas.height - marginY`. -/
def isEdge (img : Image) (x y : ℕ) : Bool :=
  x < img.marginX || x > img.width - img.marginX ||
  y < img.marginY || y > img.height - img.marginY

/-- The background-removal test of videoProcessor.ts:54:
all three channels strictly above the threshold 240. -/
def isWhite (p : Pixel) : Bool :=
  240 < p.r && 240 < p.g && 240 < p.b

/-- A pixel is tracked by the bounding box scan (videoProcessor.ts:44-65)
iff it is not edge-cropped, not removed as background, and its alpha
exceeds 20. -/
def qualifiesAt (img : Image) (x y : ℕ) : Bool :=
  !isEdge img x y && !isWhite (img.px x y) && 20 < (img.px x y).a

/-- Accumulator of the bounding-box scan, videoProcessor.ts:26-30. -/
structure BBox where
  minX : ℕ
  minY : ℕ
  maxX : ℕ
  maxY : ℕ
  found : Bool
deriving DecidableEq

/-- One iteration of the scan loop (videoProcessor.ts:39-66) at flat pixel
position `p`, with `x = p % width`, `y = p / width`. -/
def bboxStep (img : Image) (acc : BBox) (p : ℕ) : BBox :=
  let x := p % img.width
  let y := p / img.width
  if qualifiesAt img x y then
    { minX := min acc.minX x, minY := min acc.minY y,
      maxX := max acc.maxX x, maxY := max acc.maxY y, found := true }
  else
    acc

/-- The whole scan over every pixel of the image, starting from the
initial accumulator `minX = width, minY = height, maxX = 0, maxY = 0,
foundPixel = false` (videoProcessor.ts:26-30). -/
def bboxScan (img : Image) : BBox :=
  (List.range (img.width * img.height)).foldl (bboxStep img)
    ⟨img.width, img.height, 0, 0, false⟩

/-- Result of `processFrameData` (videoProcessor.ts:85-89): the crop origin
and the cropped canvas dimensions `charWidth = maxX - minX`,
`charHeight = maxY - minY` (videoProcessor.ts:70-71). -/
structure CharCrop where
  minX : ℕ
  minY : ℕ
  width : ℕ
  height : ℕ
deriving DecidableEq

/-- `processFrameData` (videoProcessor.ts:10-90): scan for the bounding box
of qualifying pixels; if none was found return `null` (`none`), otherwise
return the crop with `width = maxX - minX` and `height = maxY - minY`. -/
def processFrameData (img : Image) : Option CharCrop :=
  let bb := bboxScan img
  if bb.found then
    some ⟨bb.minX, bb.minY, bb.maxX - bb.minX, bb.maxY - bb.minY⟩
  else
    none

/-- The geometry computed for one surviving frame by
`processGeneratedFrames` (videoProcessor.ts:114-135): the final canvas
dimensions and the scaled draw rectangle. -/
structure Layout where
  canvasW : ℕ
  canvasH : ℕ
  drawW : ℚ
  drawH : ℚ
  destX : ℚ
  destY : ℚ
deriving DecidableEq

/-- Scale normalization and absolute centering, videoProcessor.ts:122-132:
`baseScale = 0.85`, `targetCharHeight = targetHeight * baseScale * zoom`,
`scale = targetCharHeight / height`, `drawW = width * scale`,
`drawH = height * scale`, `destX = (targetWidth - drawW)/2`,
`destY = (targetHeight - drawH)/2`; the canvas is `targetWidth × targetHeight`
(videoProcessor.ts:115-116). -/
def frameLayout (targetWidth targetHeight : ℕ) (zoom : ℚ) (width height : ℕ) : Layout :=
  let baseScale : ℚ := 85 / 100
  let targetCharHeight : ℚ := (targetHeight : ℚ) * baseScale * zoom
  let scale : ℚ := targetCharHeight / (height : ℚ)
  let drawW : ℚ := (width : ℚ) * scale
  let drawH : ℚ := (height : ℚ) * scale
  { canvasW := targetWidth, canvasH := targetHeight,
    drawW := drawW, drawH := drawH,
    destX := ((targetWidth : ℚ) - drawW) / 2,
    destY := ((targetHeight : ℚ) - drawH) / 2 }

/-- A `GeneratedFrame` (types.ts:2-9) as produced by
`processGeneratedFrames` (videoProcessor.ts:142-149): slot index, the
target canvas dimensions, and the RGBA pixel buffer of the composited
canvas as a flat byte list. -/
structure Frame where
  index : ℕ
  width : ℕ
  height : ℕ
  buffer : List ℕ
deriving DecidableEq

/-- The loop body of `processGeneratedFrames` (videoProcessor.ts:104-160).
`imgs` holds, per slot, `some img` for a frame that loaded and decoded, or
`none` for a frame whose load failed (`img.onerror`, videoProcessor.ts:154).
A frame is pushed exactly when `processFrameData` found a character;
`render` abstracts the browser's `drawImage`/`getImageData` rasterisation
of the layout into the final RGBA buffer. -/
def processLoop (render : ℕ → Layout → List ℕ) (targetWidth targetHeight : ℕ)
    (zoom : ℚ) : List (Option Image) → ℕ → List Frame
  | [], _ => []
  | none :: rest, i => processLoop render targetWidth targetHeight zoom rest (i + 1)
  | some img :: rest, i =>
    match processFrameData img with
    | none => processLoop render targetWidth targetHeight zoom rest (i + 1)
    | some crop =>
      { index := i, width := targetWidth, height := targetHeight,
        buffer := render i (frameLayout targetWidth targetHeight zoom crop.width crop.height) }
        :: processLoop render targetWidth targetHeight zoom rest (i + 1)

/-- `processGeneratedFrames` (videoProcessor.ts:96-163): process the image
list in slot order starting at index 0. -/
def processGeneratedFrames (render : ℕ → Layout → List ℕ)
    (imgs : List (Option Image)) (targetWidth targetHeight : ℕ) (zoom : ℚ) : List Frame :=
  processLoop render targetWidth targetHeight zoom imgs 0

/-- `Math.round` on a rational: JavaScript rounds half away from zero for
positive arguments, i.e. `⌊x + 1/2⌋` (videoProcessor.ts:183 rounds a
positive delay). -/
def jsRound (x : ℚ) : ℤ := ⌊x + 1 / 2⌋

/-- The APNG artifact handed to `UPNG.encode` (videoProcessor.ts:187):
the raw RGBA buffers, the shared dimensions, the palette-size hint
`cnum = 0`, and the per-frame delay list. -/
structure Apng where
  buffers : List (List ℕ)
  width : ℕ
  height : ℕ
  cnum : ℕ
  delays : List ℤ
deriving DecidableEq

/-- `createApng` (videoProcessor.ts:165-193): error on an empty frame list
(videoProcessor.ts:169-171); otherwise dimensions come from the first frame
(`frames[0].width || 0`), every frame contributes its pixel buffer, and
every frame gets the identical delay `Math.round(1000 / fps)`.
The `window.UPNG` presence check and the possibility of the external
encoder throwing are modelled as the library being loaded and succeeding. -/
def createApng (frames : List Frame) (fps : ℚ) : Except String Apng :=
  if frames.length = 0 then
    Except.error "No frames to encode"
  else
    let width := ((frames.head?).map Frame.width).getD 0
    let height := ((frames.head?).map Frame.height).getD 0
    let buffers := frames.map Frame.buffer
    let delay := jsRound (1000 / fps)
    Except.ok ⟨buffers, width, height, 0, List.replicate buffers.length delay⟩

/-- The magenta chroma-keying transform applied per frame inside
`createGif` (videoProcessor.ts:231-250), expressed structurally on the
flat RGBA list: every 4-byte pixel with `a < 128` becomes
`(255, 0, 255, 255)`, every other pixel keeps its RGB and is forced to
alpha 255.  Buffers always have length `4 * width * height`; a ragged
tail of fewer than 4 bytes (which cannot arise from `ImageData`) is left
unchanged. -/
def magentaKey : List ℕ → List ℕ
  | r :: g :: b :: a :: rest =>
    if a < 128 then 255 :: 0 :: 255 :: 255 :: magentaKey rest
    else r :: g :: b :: 255 :: magentaKey rest
  | l => l

/-- The same keying loop (videoProcessor.ts:231-250) with the write targets
made explicit: `orig` is the `Uint8ClampedArray` view over the frame's
`pixelBuffer`, `newB` is the freshly allocated buffer, and every store of
the loop body hits `newB` only.  Out-of-range reads default to 0 and
out-of-range writes are dropped, as for typed arrays. -/
def keyLoop (orig newB : List ℕ) (i : ℕ) : List ℕ × List ℕ :=
  if i < orig.length then
    let r := orig.getD i 0
    let g := orig.getD (i + 1) 0
    let b := orig.getD (i + 2) 0
    let a := orig.getD (i + 3) 0
    let written :=
      if a < 128 then
        ((((newB.set i 255).set (i + 1) 0).set (i + 2) 255).set (i + 3) 255)
      else
        ((((newB.set i r).set (i + 1) g).set (i + 2) b).set (i + 3) 255)
    keyLoop orig written (i + 4)
  else
    (orig, newB)
termination_by orig.length - i
decreasing_by omega

/-- Per-frame step of the GIF encoding loop (videoProcessor.ts:222-255):
a frame is keyed and added only if its buffer, width and height are all
truthy; the frame retains whatever the loop left in the memory aliased by
`orig` (the first component of `keyLoop`). -/
def gifFrameStep (f : Frame) : Frame × Option (List ℕ) :=
  if f.width ≠ 0 ∧ f.height ≠ 0 then
    let run := keyLoop f.buffer (List.replicate f.buffer.length 0) 0
    ({ f with buffer := run.1 }, some run.2)
  else
    (f, none)

/-- The effect of `createGif`'s frame loop on the frame store and the
image-data list handed to the GIF encoder. -/
def createGifRun (frames : List Frame) : List Frame × List (List ℕ) :=
  (frames.map (fun f => (gifFrameStep f).1),
   frames.filterMap (fun f => (gifFrameStep f).2))

/-- The GIF artifact: encoder configuration (videoProcessor.ts:211-218)
plus the keyed per-frame image data and the per-frame delay `1000 / fps`
(videoProcessor.ts:253). -/
structure Gif where
  width : ℕ
  height : ℕ
  transparent : ℕ
  delay : ℚ
  datas : List (List ℕ)
deriving DecidableEq

/-- `createGif` (videoProcessor.ts:198-268).  On an empty frame list the
configuration access `frames[0].width` throws a `TypeError`, which the
surrounding `try` turns into a rejection.  Otherwise the artifact uses the
first frame's dimensions, the magenta key `0xFF00FF`, and the keyed
buffers.  The worker-script fetch is modelled as succeeding.  The second
component is the frame store after the loop ran. -/
def createGif (frames : List Frame) (fps : ℚ) : Except String Gif × List Frame :=
  match frames with
  | [] => (Except.error "TypeError: frames.0 is undefined", [])
  | f0 :: _ =>
    let run := createGifRun frames
    (Except.ok { width := f0.width, height := f0.height, transparent := 0xFF00FF,
                 delay := 1000 / fps, datas := run.2 },
     run.1)

/-- Zero-pad a 1-based index to two digits, as
`(index + 1).toString().padStart(2, '0')` (videoProcessor.ts:283). -/
def pad2 (n : ℕ) : String := if n < 10 then "0" ++ toString n else toString n

/-- `createZip` (videoProcessor.ts:273-288): every frame becomes an entry
`frames/frame_NN.png` holding that frame's PNG blob (modelled by the frame
itself); the archive generation succeeds, also for an empty frame list. -/
def createZip (frames : List Frame) : Except String (List (String × Frame)) :=
  Except.ok ((frames.enum).map
    (fun p => ("frames/frame_" ++ pad2 (p.1 + 1) ++ ".png", p.2)))

/-- Outcome of the multi-frame generator: the URL list on success, a
cancellation (the distinguished `"Generation aborted by user."` error the
caller recognises, types.ts ll. 759-774 and the `e.message` comparison in
the orchestrator), or the propagated failure of an individual request. -/
inductive GenOutcome (ε : Type) where
  | ok (urls : List String)
  | cancelled
  | failed (e : ε)

/-- `true` iff the outcome is a successful URL list. -/
def GenOutcome.isOk {ε : Type} : GenOutcome ε → Bool
  | .ok _ => true
  | _ => false

/-- `true` iff a single request failed. -/
def isErr {ε α : Type} : Except ε α → Bool
  | .error _ => true
  | .ok _ => false

/-- The rejection `Promise.all` propagates for a batch: the error of the
first failing request, if any. -/
def firstError {ε : Type} (gen : ℕ → Except ε String) : List ℕ → Option ε
  | [] => none
  | j :: rest =>
    match gen j with
    | .error e => some e
    | .ok _ => firstError gen rest

/-- The URLs of a fully successful batch, in request order (a failed slot
contributes a dummy; it is only read on all-success paths). -/
def batchUrls {ε : Type} (gen : ℕ → Except ε String) (batch : List ℕ) : List String :=
  batch.map (fun j => match gen j with | .ok u => u | .error _ => "")

/-- The batch schedule of `generateAnimationFrames` (types.ts ll. 756-764):
`for (i = 0; i < count; i += 3)`, batch `k` holding the indices
`[3k, min (3k+3) count)`. -/
def batchesOf (count : ℕ) : List (List ℕ) :=
  (List.range ((count + 2) / 3)).map
    (fun k => List.range' (3 * k) (min (3 * k + 3) count - 3 * k))

/-- The generation loop (types.ts ll. 758-777).  `aborted t` is the state
of the cancellation token at its `t`-th poll; polls `2k` and `2k + 1`
happen before batch `k` starts and after it settles.  Each iteration:
poll, issue the whole batch, propagate the first request failure if any,
poll again, accumulate the batch's URLs.  The second component records
every request index that was issued. -/
def genLoop {ε : Type} (gen : ℕ → Except ε String) (aborted : ℕ → Bool) :
    List (List ℕ) → ℕ → List String → List ℕ → GenOutcome ε × List ℕ
  | [], _, acc, issued => (.ok acc, issued)
  | batch :: rest, t, acc, issued =>
    if aborted t then (.cancelled, issued)
    else
      match firstError gen batch with
      | some e => (.failed e, issued ++ batch)
      | none =>
        if aborted (t + 1) then (.cancelled, issued ++ batch)
        else genLoop gen aborted rest (t + 2) (acc ++ batchUrls gen batch) (issued ++ batch)

/-- `generateAnimationFrames` (types.ts ll. 748-780): run the batch
schedule from the first poll with empty accumulators. -/
def generateAnimationFrames {ε : Type} (gen : ℕ → Except ε String) (count : ℕ)
    (aborted : ℕ → Bool) : GenOutcome ε × List ℕ :=
  genLoop gen aborted (batchesOf count) 0 [] []

/-- 1×1 image holding a single black opaque pixel. -/
def imgSingle : Image := ⟨1, 1, fun _ _ => ⟨0, 0, 0, 255⟩⟩

/-- 2×1 image of two black opaque pixels. -/
def imgRow2 : Image := ⟨2, 1, fun _ _ => ⟨0, 0, 0, 255⟩⟩

/-- 1×1 image with all channels exactly at the threshold 240. -/
def img240 : Image := ⟨1, 1, fun _ _ => ⟨240, 240, 240, 255⟩⟩

/-- 2×2 image that is pure white everywhere. -/
def imgWhite : Image := ⟨2, 2, fun _ _ => ⟨255, 255, 255, 255⟩⟩

example : processFrameData imgSingle = some ⟨0, 0, 0, 0⟩ := by decide
example : processFrameData imgRow2 = some ⟨0, 0, 1, 0⟩ := by decide
example : processFrameData img240 = some ⟨0, 0, 0, 0⟩ := by decide
example : processFrameData imgWhite = none := by decide

/-- Qualification at a flat pixel position. -/
def qualP (img : Image) (p : ℕ) : Bool :=
  qualifiesAt img (p % img.width) (p / img.width)

lemma bboxStep_def (img : Image) (acc : BBox) (p : ℕ) :
    bboxStep img acc p =
      if qualP img p then
        { minX := min acc.minX (p % img.width), minY := min acc.minY (p / img.width),
          maxX := max acc.maxX (p % img.width), maxY := max acc.maxY (p / img.width),
          found := true }
      else acc := rfl

lemma bbox_foldl_found (img : Image) :
    ∀ (l : List ℕ) (acc : BBox),
      (l.foldl (bboxStep img) acc).found = (acc.found || l.any (qualP img)) := by
  intro l
  induction l with
  | nil => intro acc; simp
  | cons q l ih =>
    intro acc
    rw [List.foldl_cons, List.any_cons, bboxStep_def]
    by_cases hq : qualP img q
    · rw [if_pos hq, ih, hq]
      simp
    · rw [if_neg hq, ih]
      simp at hq
      rw [hq]
      simp

lemma bbox_foldl_mono (img : Image) :
    ∀ (l : List ℕ) (acc : BBox),
      (l.foldl (bboxStep img) acc).minX ≤ acc.minX ∧
      (l.foldl (bboxStep img) acc).minY ≤ acc.minY ∧
      acc.maxX ≤ (l.foldl (bboxStep img) acc).maxX ∧
      acc.maxY ≤ (l.foldl (bboxStep img) acc).maxY := by
  intro l
  induction l with
  | nil => intro acc; simp
  | cons q l ih =>
    intro acc
    rw [List.foldl_cons, bboxStep_def]
    by_cases hq : qualP img q
    · rw [if_pos hq]
      obtain ⟨h1, h2, h3, h4⟩ := ih
        ⟨min acc.minX (q % img.width), min acc.minY (q / img.width),
         max acc.maxX (q % img.width), max acc.maxY (q / img.width), true⟩
      simp only at h1 h2 h3 h4
      omega
    · rw [if_neg hq]
      exact ih acc

lemma bbox_foldl_bounds (img : Image) :
    ∀ (l : List ℕ) (acc : BBox) (p : ℕ), p ∈ l → qualP img p = true →
      (l.foldl (bboxStep img) acc).minX ≤ p % img.width ∧
      (l.foldl (bboxStep img) acc).minY ≤ p / img.width ∧
      p % img.width ≤ (l.foldl (bboxStep img) acc).maxX ∧
      p / img.width ≤ (l.foldl (bboxStep img) acc).maxY := by
  intro l
  induction l with
  | nil => intro acc p hp; exact absurd hp (List.not_mem_nil p)
  | cons q l ih =>
    intro acc p hp hqp
    rw [List.foldl_cons]
    rcases List.mem_cons.mp hp with rfl | hmem
    · rw [bboxStep_def, if_pos hqp]
      obtain ⟨h1, h2, h3, h4⟩ := bbox_foldl_mono img l
        ⟨min acc.minX (p % img.width), min acc.minY (p / img.width),
         max acc.maxX (p % img.width), max acc.maxY (p / img.width), true⟩
      simp only at h1 h2 h3 h4
      omega
    · exact ih (bboxStep img acc q) p hmem hqp

lemma bbox_foldl_attained (img : Image) :
    ∀ (l : List ℕ) (acc : BBox),
      ((l.foldl (bboxStep img) acc).minX = acc.minX ∨
        ∃ p ∈ l, qualP img p = true ∧ p % img.width = (l.foldl (bboxStep img) acc).minX) ∧
      ((l.foldl (bboxStep img) acc).minY = acc.minY ∨
        ∃ p ∈ l, qualP img p = true ∧ p / img.width = (l.foldl (bboxStep img) acc).minY) ∧
      ((l.foldl (bboxStep img) acc).maxX = acc.maxX ∨
        ∃ p ∈ l, qualP img p = true ∧ p % img.width = (l.foldl (bboxStep img) acc).maxX) ∧
      ((l.foldl (bboxStep img) acc).maxY = acc.maxY ∨
        ∃ p ∈ l, qualP img p = true ∧ p / img.width = (l.foldl (bboxStep img) acc).maxY) := by
  intro l
  induction l with
  | nil => intro acc; simp
  | cons q l ih =>
    intro acc
    rw [List.foldl_cons]
    by_cases hq : qualP img q
    · rw [bboxStep_def, if_pos hq]
      obtain ⟨a1, a2, a3, a4⟩ := ih
        ⟨min acc.minX (q % img.width), min acc.minY (q / img.width),
         max acc.maxX (q % img.width), max acc.maxY (q / img.width), true⟩
      simp only at a1 a2 a3 a4
      refine ⟨?_, ?_, ?_, ?_⟩
      · rcases a1 with h | ⟨p, hp, hq2, he⟩
        · rcases Nat.le_total acc.minX (q % img.width) with hle | hle
          · exact Or.inl (h.trans (Nat.min_eq_left hle))
          · exact Or.inr ⟨q, List.mem_cons_self q l, hq, by omega⟩
        · exact Or.inr ⟨p, List.mem_cons_of_mem q hp, hq2, he⟩
      · rcases a2 with h | ⟨p, hp, hq2, he⟩
        · rcases Nat.le_total acc.minY (q / img.width) with hle | hle
          · exact Or.inl (h.trans (Nat.min_eq_left hle))
          · exact Or.inr ⟨q, List.mem_cons_self q l, hq, by omega⟩
        · exact Or.inr ⟨p, List.mem_cons_of_mem q hp, hq2, he⟩
      · rcases a3 with h | ⟨p, hp, hq2, he⟩
        · rcases Nat.le_total acc.maxX (q % img.width) with hle | hle
          · exact Or.inr ⟨q, List.mem_cons_self q l, hq, by omega⟩
          · exact Or.inl (h.trans (Nat.max_eq_left hle))
        · exact Or.inr ⟨p, List.mem_cons_of_mem q hp, hq2, he⟩
      · rcases a4 with h | ⟨p, hp, hq2, he⟩
        · rcases Nat.le_total acc.maxY (q / img.width) with hle | hle
          · exact Or.inr ⟨q, List.mem_cons_self q l, hq, by omega⟩
          · exact Or.inl (h.trans (Nat.max_eq_left hle))
        · exact Or.inr ⟨p, List.mem_cons_of_mem q hp, hq2, he⟩
    · rw [bboxStep_def, if_neg hq]
      obtain ⟨a1, a2, a3, a4⟩ := ih acc
      exact ⟨a1.imp id (fun ⟨p, hp, h1, h2⟩ => ⟨p, List.mem_cons_of_mem q hp, h1, h2⟩),
             a2.imp id (fun ⟨p, hp, h1, h2⟩ => ⟨p, List.mem_cons_of_mem q hp, h1, h2⟩),
             a3.imp id (fun ⟨p, hp, h1, h2⟩ => ⟨p, List.mem_cons_of_mem q hp, h1, h2⟩),
             a4.imp id (fun ⟨p, hp, h1, h2⟩ => ⟨p, List.mem_cons_of_mem q hp, h1, h2⟩)⟩

lemma encode_lt (img : Image) (x y : ℕ) (hx : x < img.width) (hy : y < img.height) :
    img.width * y + x < img.width * img.height := by
  calc img.width * y + x < img.width * y + img.width := Nat.add_lt_add_left hx _
    _ = img.width * (y + 1) := by ring
    _ ≤ img.width * img.height := Nat.mul_le_mul_left _ hy

lemma qualP_encode (img : Image) (x y : ℕ) (hx : x < img.width) :
    qualP img (img.width * y + x) = qualifiesAt img x y := by
  have hw : 0 < img.width := Nat.pos_of_ne_zero (by omega)
  unfold qualP
  rw [Nat.mul_add_mod, Nat.mod_eq_of_lt hx, Nat.mul_add_div hw, Nat.div_eq_of_lt hx, Nat.add_zero]

/-- Full characterisation of the bounding-box scan when a pixel was found:
`minX`/`maxX`/`minY`/`maxY` bound every qualifying pixel and each of them is
attained by some qualifying pixel. -/
lemma bboxScan_char (img : Image) (h : (bboxScan img).found = true) :
    (∀ x y, x < img.width → y < img.height → qualifiesAt img x y = true →
       (bboxScan img).minX ≤ x ∧ x ≤ (bboxScan img).maxX ∧
       (bboxScan img).minY ≤ y ∧ y ≤ (bboxScan img).maxY) ∧
    (∃ x y, x < img.width ∧ y < img.height ∧ qualifiesAt img x y = true ∧
       x = (bboxScan img).minX) ∧
    (∃ x y, x < img.width ∧ y < img.height ∧ qualifiesAt img x y = true ∧
       x = (bboxScan img).maxX) ∧
    (∃ x y, x < img.width ∧ y < img.height ∧ qualifiesAt img x y = true ∧
       y = (bboxScan img).minY) ∧
    (∃ x y, x < img.width ∧ y < img.height ∧ qualifiesAt img x y = true ∧
       y = (bboxScan img).maxY) ∧
    (bboxScan img).minX ≤ (bboxScan img).maxX ∧
    (bboxScan img).minY ≤ (bboxScan img).maxY := by
  have hfound := bbox_foldl_found img (List.range (img.width * img.height))
    ⟨img.width, img.height, 0, 0, false⟩
  rw [show (List.range (img.width * img.height)).foldl (bboxStep img)
        ⟨img.width, img.height, 0, 0, false⟩ = bboxScan img from rfl, h] at hfound
  have hany : ∃ p ∈ List.range (img.width * img.height), qualP img p = true :=
    List.any_eq_true.mp (by simpa using hfound.symm)
  obtain ⟨p0, hp0mem, hp0q⟩ := hany
  have hp0lt : p0 < img.width * img.height := List.mem_range.mp hp0mem
  have hw : 0 < img.width := by
    rcases Nat.eq_zero_or_pos img.width with h0 | h0
    · rw [h0] at hp0lt; simp at hp0lt
    · exact h0
  have hx0 : p0 % img.width < img.width := Nat.mod_lt _ hw
  have hy0 : p0 / img.width < img.height := by
    rw [Nat.div_lt_iff_lt_mul hw, Nat.mul_comm]
    exact hp0lt
  have hb0 := bbox_foldl_bounds img (List.range (img.width * img.height))
    ⟨img.width, img.height, 0, 0, false⟩ p0 hp0mem hp0q
  rw [show (List.range (img.width * img.height)).foldl (bboxStep img)
        ⟨img.width, img.height, 0, 0, false⟩ = bboxScan img from rfl] at hb0
  have hbounds : ∀ x y, x < img.width → y < img.height → qualifiesAt img x y = true →
      (bboxScan img).minX ≤ x ∧ x ≤ (bboxScan img).maxX ∧
      (bboxScan img).minY ≤ y ∧ y ≤ (bboxScan img).maxY := by
    intro x y hx hy hq
    have hmem : img.width * y + x ∈ List.range (img.width * img.height) :=
      List.mem_range.mpr (encode_lt img x y hx hy)
    have hqp : qualP img (img.width * y + x) = true := by rw [qualP_encode img x y hx]; exact hq
    have hb := bbox_foldl_bounds img (List.range (img.width * img.height))
      ⟨img.width, img.height, 0, 0, false⟩ _ hmem hqp
    rw [show (List.range (img.width * img.height)).foldl (bboxStep img)
          ⟨img.width, img.height, 0, 0, false⟩ = bboxScan img from rfl] at hb
    rw [Nat.mul_add_mod, Nat.mod_eq_of_lt hx, Nat.mul_add_div hw, Nat.div_eq_of_lt hx,
      Nat.add_zero] at hb
    exact ⟨hb.1, hb.2.2.1, hb.2.1, hb.2.2.2⟩
  have hatt := bbox_foldl_attained img (List.range (img.width * img.height))
    ⟨img.width, img.height, 0, 0, false⟩
  rw [show (List.range (img.width * img.height)).foldl (bboxStep img)
        ⟨img.width, img.height, 0, 0, false⟩ = bboxScan img from rfl] at hatt
  obtain ⟨a1, a2, a3, a4⟩ := hatt
  simp only at a1 a2 a3 a4
  refine ⟨hbounds, ?_, ?_, ?_, ?_, ?_, ?_⟩
  · rcases a1 with hinit | ⟨p, hpmem, hpq, he⟩
    · exfalso
      have := hb0.1
      omega
    · have hplt : p < img.width * img.height := List.mem_range.mp hpmem
      exact ⟨p % img.width, p / img.width, Nat.mod_lt _ hw,
        by rw [Nat.div_lt_iff_lt_mul hw, Nat.mul_comm]; exact hplt, hpq, he⟩
  · rcases a3 with hinit | ⟨p, hpmem, hpq, he⟩
    · refine ⟨p0 % img.width, p0 / img.width, hx0, hy0, hp0q, ?_⟩
      have := hb0.2.2.1
      omega
    · have hplt : p < img.width * img.height := List.mem_range.mp hpmem
      exact ⟨p % img.width, p / img.width, Nat.mod_lt _ hw,
        by rw [Nat.div_lt_iff_lt_mul hw, Nat.mul_comm]; exact hplt, hpq, he⟩
  · rcases a2 with hinit | ⟨p, hpmem, hpq, he⟩
    · exfalso
      have := hb0.2.1
      omega
    · have hplt : p < img.width * img.height := List.mem_range.mp hpmem
      exact ⟨p % img.width, p / img.width, Nat.mod_lt _ hw,
        by rw [Nat.div_lt_iff_lt_mul hw, Nat.mul_comm]; exact hplt, hpq, he⟩
  · rcases a4 with hinit | ⟨p, hpmem, hpq, he⟩
    · refine ⟨p0 % img.width, p0 / img.width, hx0, hy0, hp0q, ?_⟩
      have := hb0.2.2.2
      omega
    · have hplt : p < img.width * img.height := List.mem_range.mp hpmem
      exact ⟨p % img.width, p / img.width, Nat.mod_lt _ hw,
        by rw [Nat.div_lt_iff_lt_mul hw, Nat.mul_comm]; exact hplt, hpq, he⟩
  · exact le_trans hb0.1 hb0.2.2.1
  · exact le_trans hb0.2.1 hb0.2.2.2

/-- `processFrameData` succeeds exactly with the crop derived from the scan. -/
lemma processFrameData_eq_some (img : Image) (r : CharCrop)
    (h : processFrameData img = some r) :
    (bboxScan img).found = true ∧
    r = ⟨(bboxScan img).minX, (bboxScan img).minY,
         (bboxScan img).maxX - (bboxScan img).minX,
         (bboxScan img).maxY - (bboxScan img).minY⟩ := by
  unfold processFrameData at h
  by_cases hf : (bboxScan img).found
  · rw [if_pos hf] at h
    exact ⟨hf, (Option.some.injEq _ _ ▸ h).symm⟩
  · rw [if_neg hf] at h
    exact absurd h (by simp)

/-- C2 (counterexample): the crop does NOT contain every qualifying pixel.
In the 2×1 all-black image both pixels have alpha > 20 after edge crop and
background removal, yet `processFrameData` returns a crop of width
`maxX - minX = 1` and height `maxY - minY = 0`, and the qualifying pixel
`(1, 0)` lies outside the crop rectangle. -/
theorem crop_not_minimal_rectangle :
    ¬ (∀ (img : Image) (r : CharCrop), processFrameData img = some r →
        ∀ x y, x < img.width → y < img.height → qualifiesAt img x y = true →
          x < r.minX + r.width ∧ y < r.minY + r.height) := by
  intro h
  have h2 := h imgRow2 ⟨0, 0, 1, 0⟩ (by decide) 1 0 (by decide) (by decide) (by decide)
  exact absurd h2.2 (by decide)

/-- Shared characterisation of a surviving crop: `minX`/`minY` and
`minX + width`/`minY + height` are the extreme qualifying coordinates. -/
lemma processFrameData_extents (img : Image) (r : CharCrop)
    (h : processFrameData img = some r) :
    (∀ x y, x < img.width → y < img.height → qualifiesAt img x y = true →
       r.minX ≤ x ∧ x ≤ r.minX + r.width ∧ r.minY ≤ y ∧ y ≤ r.minY + r.height) ∧
    (∃ x y, x < img.width ∧ y < img.height ∧ qualifiesAt img x y = true ∧ x = r.minX) ∧
    (∃ x y, x < img.width ∧ y < img.height ∧ qualifiesAt img x y = true ∧
       x = r.minX + r.width) ∧
    (∃ x y, x < img.width ∧ y < img.height ∧ qualifiesAt img x y = true ∧ y = r.minY) ∧
    (∃ x y, x < img.width ∧ y < img.height ∧ qualifiesAt img x y = true ∧
       y = r.minY + r.height) := by
  obtain ⟨hf, hr⟩ := processFrameData_eq_some img r h
  obtain ⟨hbounds, hminX, hmaxX, hminY, hmaxY, hxle, hyle⟩ := bboxScan_char img hf
  subst hr
  have hwidth : (bboxScan img).minX + ((bboxScan img).maxX - (bboxScan img).minX) =
      (bboxScan img).maxX := by omega
  have hheight : (bboxScan img).minY + ((bboxScan img).maxY - (bboxScan img).minY) =
      (bboxScan img).maxY := by omega
  refine ⟨?_, ?_, ?_, ?_, ?_⟩
  · intro x y hx hy hq
    have := hbounds x y hx hy hq
    simp only
    omega
  · simpa only using hminX
  · simpa only [hwidth] using hmaxX
  · simpa only using hminY
  · simpa only [hheight] using hmaxY

/-- C2 (amended): the crop dimensions are the differences of the extreme
qualifying-pixel coordinates (one less than the inclusive extents):
`r.minX` is the least qualifying x-coordinate, `r.minX + r.width` the
greatest, and likewise for y; so the crop rectangle
`[minX, minX + width) × [minY, minY + height)` excludes the rightmost
column and bottom row of qualifying pixels. -/
theorem crop_extents (img : Image) (r : CharCrop)
    (h : processFrameData img = some r) :
    (∀ x y, x < img.width → y < img.height → qualifiesAt img x y = true →
       r.minX ≤ x ∧ x ≤ r.minX + r.width ∧ r.minY ≤ y ∧ y ≤ r.minY + r.height) ∧
    (∃ x y, x < img.width ∧ y < img.height ∧ qualifiesAt img x y = true ∧ x = r.minX) ∧
    (∃ x y, x < img.width ∧ y < img.height ∧ qualifiesAt img x y = true ∧
       x = r.minX + r.width) ∧
    (∃ x y, x < img.width ∧ y < img.height ∧ qualifiesAt img x y = true ∧ y = r.minY) ∧
    (∃ x y, x < img.width ∧ y < img.height ∧ qualifiesAt img x y = true ∧
       y = r.minY + r.height) :=
  processFrameData_extents img r h

/-- C2 (witness): the amended characterisation evaluated on the concrete
2×1 all-black image. -/
theorem crop_extents_witness :
    processFrameData imgRow2 = some ⟨0, 0, 1, 0⟩ ∧
    ((∀ x y, x < imgRow2.width → y < imgRow2.height → qualifiesAt imgRow2 x y = true →
        (0 : ℕ) ≤ x ∧ x ≤ 0 + 1 ∧ (0 : ℕ) ≤ y ∧ y ≤ 0 + 0) ∧
     (∃ x y, x < imgRow2.width ∧ y < imgRow2.height ∧ qualifiesAt imgRow2 x y = true ∧
        x = 0) ∧
     (∃ x y, x < imgRow2.width ∧ y < imgRow2.height ∧ qualifiesAt imgRow2 x y = true ∧
        x = 0 + 1) ∧
     (∃ x y, x < imgRow2.width ∧ y < imgRow2.height ∧ qualifiesAt imgRow2 x y = true ∧
        y = 0) ∧
     (∃ x y, x < imgRow2.width ∧ y < imgRow2.height ∧ qualifiesAt imgRow2 x y = true ∧
        y = 0 + 0)) :=
  ⟨by decide, crop_extents imgRow2 ⟨0, 0, 1, 0⟩ (by decide)⟩

/-- C10 (counterexample): a surviving frame can have crop width and height
equal to 0.  The 1×1 all-black image survives (its single pixel qualifies)
but `maxX - minX = 0` and `maxY - minY = 0`. -/
theorem crop_dims_not_positive :
    ¬ (∀ (img : Image) (r : CharCrop), processFrameData img = some r →
        0 < r.width ∧ 0 < r.height) := by
  intro h
  have h2 := h imgSingle ⟨0, 0, 0, 0⟩ (by decide)
  exact absurd h2.1 (by decide)

/-- C10 (amended): for every surviving frame the crop width (resp. height)
is positive iff the qualifying pixels span at least two distinct columns
(resp. rows); a frame whose qualifying pixels all lie in a single column or
row — e.g. a single qualifying pixel — yields a zero crop dimension, and
the scale computation `targetCharHeight / height` then divides by zero. -/
theorem crop_dims_positive_iff (img : Image) (r : CharCrop)
    (h : processFrameData img = some r) :
    (0 < r.width ↔ ∃ x y x2 y2, x < img.width ∧ y < img.height ∧
       x2 < img.width ∧ y2 < img.height ∧ qualifiesAt img x y = true ∧
       qualifiesAt img x2 y2 = true ∧ x ≠ x2) ∧
    (0 < r.height ↔ ∃ x y x2 y2, x < img.width ∧ y < img.height ∧
       x2 < img.width ∧ y2 < img.height ∧ qualifiesAt img x y = true ∧
       qualifiesAt img x2 y2 = true ∧ y ≠ y2) := by
  obtain ⟨hbounds, hminX, hmaxX, hminY, hmaxY⟩ := processFrameData_extents img r h
  constructor
  · constructor
    · intro hw
      obtain ⟨x1, y1, hx1, hy1, hq1, he1⟩ := hminX
      obtain ⟨x2, y2, hx2, hy2, hq2, he2⟩ := hmaxX
      exact ⟨x1, y1, x2, y2, hx1, hy1, hx2, hy2, hq1, hq2, by omega⟩
    · rintro ⟨x, y, x2, y2, hx, hy, hx2, hy2, hq, hq2, hne⟩
      have b1 := hbounds x y hx hy hq
      have b2 := hbounds x2 y2 hx2 hy2 hq2
      omega
  · constructor
    · intro hh
      obtain ⟨x1, y1, hx1, hy1, hq1, he1⟩ := hminY
      obtain ⟨x2, y2, hx2, hy2, hq2, he2⟩ := hmaxY
      exact ⟨x1, y1, x2, y2, hx1, hy1, hx2, hy2, hq1, hq2, by omega⟩
    · rintro ⟨x, y, x2, y2, hx, hy, hx2, hy2, hq, hq2, hne⟩
      have b1 := hbounds x y hx hy hq
      have b2 := hbounds x2 y2 hx2 hy2 hq2
      omega

/-- C10 (witness): the positivity characterisation evaluated on the
concrete 2×1 all-black image, whose crop is 1×0. -/
theorem crop_dims_positive_iff_witness :
    processFrameData imgRow2 = some ⟨0, 0, 1, 0⟩ ∧
    (((0 : ℕ) < 1 ↔ ∃ x y x2 y2, x < imgRow2.width ∧ y < imgRow2.height ∧
        x2 < imgRow2.width ∧ y2 < imgRow2.height ∧ qualifiesAt imgRow2 x y = true ∧
        qualifiesAt imgRow2 x2 y2 = true ∧ x ≠ x2) ∧
     ((0 : ℕ) < 0 ↔ ∃ x y x2 y2, x < imgRow2.width ∧ y < imgRow2.height ∧
        x2 < imgRow2.width ∧ y2 < imgRow2.height ∧ qualifiesAt imgRow2 x y = true ∧
        qualifiesAt imgRow2 x2 y2 = true ∧ y ≠ y2)) :=
  ⟨by decide, crop_dims_positive_iff imgRow2 ⟨0, 0, 1, 0⟩ (by decide)⟩

/-- C4 (counterexample): a frame whose every pixel has all channels in the
inclusive range 240–255 is NOT necessarily dropped — the threshold test is
strict, so a pixel with a channel exactly 240 survives.  The 1×1 image of
colour (240, 240, 240, 255) yields a surviving crop. -/
theorem white_range_frame_not_dropped :
    ¬ (∀ img : Image,
        (∀ x y, x < img.width → y < img.height →
          (240 ≤ (img.px x y).r ∧ (img.px x y).r ≤ 255) ∧
          (240 ≤ (img.px x y).g ∧ (img.px x y).g ≤ 255) ∧
          (240 ≤ (img.px x y).b ∧ (img.px x y).b ≤ 255)) →
        processFrameData img = none) := by
  intro h
  have h2 := h img240 (by intro x y hx hy; norm_num [img240])
  exact absurd h2 (by decide)

/-- C4 (amended): a frame whose every pixel has all of R, G, B strictly
greater than 240 (i.e. in 241–255) yields zero surviving pixels and is
dropped: `processFrameData` returns `none`, so no zero-size frame and no
division by zero is produced for it. -/
theorem all_white_frame_dropped (img : Image)
    (h : ∀ x y, x < img.width → y < img.height →
      240 < (img.px x y).r ∧ 240 < (img.px x y).g ∧ 240 < (img.px x y).b) :
    processFrameData img = none := by
  have hnone : ∀ p ∈ List.range (img.width * img.height), qualP img p = false := by
    intro p hp
    have hplt : p < img.width * img.height := List.mem_range.mp hp
    have hw : 0 < img.width := by
      rcases Nat.eq_zero_or_pos img.width with h0 | h0
      · rw [h0] at hplt; simp at hplt
      · exact h0
    have hx : p % img.width < img.width := Nat.mod_lt _ hw
    have hy : p / img.width < img.height := by
      rw [Nat.div_lt_iff_lt_mul hw, Nat.mul_comm]
      exact hplt
    have hpx := h (p % img.width) (p / img.width) hx hy
    have hwhite : isWhite (img.px (p % img.width) (p / img.width)) = true := by
      unfold isWhite
      simp only [Bool.and_eq_true, decide_eq_true_eq]
      omega
    unfold qualP qualifiesAt
    rw [hwhite]
    simp
  have hfound := bbox_foldl_found img (List.range (img.width * img.height))
    ⟨img.width, img.height, 0, 0, false⟩
  have hany : (List.range (img.width * img.height)).any (qualP img) = false := by
    rw [List.any_eq_false]
    intro p hp
    simp [hnone p hp]
  have hfoundfalse : (bboxScan img).found = false := by
    unfold bboxScan
    rw [hfound, hany]
    simp
  simp only [processFrameData, hfoundfalse]
  simp

/-- C4 (witness): the all-white 2×2 image is dropped. -/
theorem all_white_frame_dropped_witness : processFrameData imgWhite = none :=
  all_white_frame_dropped imgWhite (fun x y hx hy => by norm_num [imgWhite])

/-- C3: for a surviving frame of cropped dimensions `(cw, ch)` with positive
target dimensions, zoom and crop height, `processGeneratedFrames` applies
the single scale factor `s = (targetHeight * 0.85 * zoom) / ch` to both
axes, centers the scaled rectangle at `destX = (targetWidth - drawW)/2`,
`destY = (targetHeight - drawH)/2`, and composites on a canvas of exactly
`targetWidth × targetHeight`; at `zoom = 1` the drawn height is 85% of the
canvas height. -/
theorem layout_scale_and_center (tw th : ℕ) (zoom : ℚ) (cw ch : ℕ)
    (htw : 0 < tw) (hth : 0 < th) (hz : 0 < zoom) (hch : 0 < ch) :
    (frameLayout tw th zoom cw ch).canvasW = tw ∧
    (frameLayout tw th zoom cw ch).canvasH = th ∧
    (frameLayout tw th zoom cw ch).drawW =
      (cw : ℚ) * (((th : ℚ) * (85 / 100) * zoom) / (ch : ℚ)) ∧
    (frameLayout tw th zoom cw ch).drawH =
      (ch : ℚ) * (((th : ℚ) * (85 / 100) * zoom) / (ch : ℚ)) ∧
    (frameLayout tw th zoom cw ch).drawH = (th : ℚ) * (85 / 100) * zoom ∧
    (frameLayout tw th zoom cw ch).destX =
      ((tw : ℚ) - (frameLayout tw th zoom cw ch).drawW) / 2 ∧
    (frameLayout tw th zoom cw ch).destY =
      ((th : ℚ) - (frameLayout tw th zoom cw ch).drawH) / 2 := by
  have hch0 : (ch : ℚ) ≠ 0 := by
    exact_mod_cast Nat.pos_iff_ne_zero.mp hch
  refine ⟨rfl, rfl, rfl, rfl, ?_, rfl, rfl⟩
  show (ch : ℚ) * ((th : ℚ) * (85 / 100) * zoom / (ch : ℚ)) = (th : ℚ) * (85 / 100) * zoom
  field_simp
  ring

/-- C3 (witness): the layout equations evaluated at the concrete instance
`targetWidth = 300, targetHeight = 400, zoom = 1, crop = 10 × 20`. -/
theorem layout_scale_and_center_witness :
    (frameLayout 300 400 1 10 20).canvasW = 300 ∧
    (frameLayout 300 400 1 10 20).canvasH = 400 ∧
    (frameLayout 300 400 1 10 20).drawW =
      (10 : ℚ) * (((400 : ℚ) * (85 / 100) * 1) / (20 : ℚ)) ∧
    (frameLayout 300 400 1 10 20).drawH =
      (20 : ℚ) * (((400 : ℚ) * (85 / 100) * 1) / (20 : ℚ)) ∧
    (frameLayout 300 400 1 10 20).drawH = (400 : ℚ) * (85 / 100) * 1 ∧
    (frameLayout 300 400 1 10 20).destX =
      ((300 : ℚ) - (frameLayout 300 400 1 10 20).drawW) / 2 ∧
    (frameLayout 300 400 1 10 20).destY =
      ((400 : ℚ) - (frameLayout 300 400 1 10 20).drawH) / 2 :=
  layout_scale_and_center 300 400 1 10 20 (by decide) (by decide) (by norm_num) (by decide)

lemma processLoop_index_sublist (render : ℕ → Layout → List ℕ)
    (targetWidth targetHeight : ℕ) (zoom : ℚ) :
    ∀ (l : List (Option Image)) (i : ℕ),
      List.Sublist
        (List.map Frame.index (processLoop render targetWidth targetHeight zoom l i))
        (List.range' i l.length) := by
  intro l
  induction l with
  | nil =>
    intro i
    simp [processLoop]
  | cons hd tl ih =>
    intro i
    rw [List.length_cons, List.range'_succ]
    match hd with
    | none =>
      rw [show processLoop render targetWidth targetHeight zoom (none :: tl) i =
            processLoop render targetWidth targetHeight zoom tl (i + 1) from rfl]
      exact (ih (i + 1)).cons i
    | some img =>
      cases hcrop : processFrameData img with
      | none =>
        rw [show processLoop render targetWidth targetHeight zoom (some img :: tl) i =
              match processFrameData img with
              | none => processLoop render targetWidth targetHeight zoom tl (i + 1)
              | some crop =>
                { index := i, width := targetWidth, height := targetHeight,
                  buffer := render i (frameLayout targetWidth targetHeight zoom
                    crop.width crop.height) }
                  :: processLoop render targetWidth targetHeight zoom tl (i + 1) from rfl,
          hcrop]
        exact (ih (i + 1)).cons i
      | some crop =>
        rw [show processLoop render targetWidth targetHeight zoom (some img :: tl) i =
              match processFrameData img with
              | none => processLoop render targetWidth targetHeight zoom tl (i + 1)
              | some crop =>
                { index := i, width := targetWidth, height := targetHeight,
                  buffer := render i (frameLayout targetWidth targetHeight zoom
                    crop.width crop.height) }
                  :: processLoop render targetWidth targetHeight zoom tl (i + 1) from rfl,
          hcrop]
        rw [List.map_cons]
        exact (ih (i + 1)).cons₂ i

/-- C5: for every input list of N ≥ 1 raw frame slots, the normalizer
produces at most N frames, and the emitted `index` attributes form a
subsequence of `0..N-1` in strictly ascending order — dropped slots
(load failures and empty bounding boxes) are removed without renumbering
the survivors. -/
theorem frame_indices_subsequence (render : ℕ → Layout → List ℕ)
    (imgs : List (Option Image)) (targetWidth targetHeight : ℕ) (zoom : ℚ)
    (h : 1 ≤ imgs.length) :
    List.Sublist
      (List.map Frame.index
        (processGeneratedFrames render imgs targetWidth targetHeight zoom))
      (List.range imgs.length) ∧
    (processGeneratedFrames render imgs targetWidth targetHeight zoom).length ≤
      imgs.length ∧
    List.Pairwise (fun a b => a < b)
      (List.map Frame.index
        (processGeneratedFrames render imgs targetWidth targetHeight zoom)) ∧
    ∀ idx ∈ List.map Frame.index
        (processGeneratedFrames render imgs targetWidth targetHeight zoom),
      idx < imgs.length := by
  have hs := processLoop_index_sublist render targetWidth targetHeight zoom imgs 0
  rw [show List.range' 0 imgs.length = List.range imgs.length from
    (List.range_eq_range' imgs.length).symm] at hs
  refine ⟨hs, ?_, ?_, ?_⟩
  · have := hs.length_le
    rwa [List.length_map, List.length_range] at this
  · exact List.Pairwise.sublist hs (List.pairwise_lt_range imgs.length)
  · intro idx hidx
    exact List.mem_range.mp (hs.subset hidx)

/-- C5 (witness): the subsequence property on a concrete singleton input. -/
theorem frame_indices_subsequence_witness :
    List.Sublist
      (List.map Frame.index
        (processGeneratedFrames (fun _ _ => []) [some imgSingle] 4 4 1))
      (List.range ([some imgSingle] : List (Option Image)).length) ∧
    (processGeneratedFrames (fun _ _ => []) [some imgSingle] 4 4 1).length ≤
      ([some imgSingle] : List (Option Image)).length ∧
    List.Pairwise (fun a b => a < b)
      (List.map Frame.index
        (processGeneratedFrames (fun _ _ => []) [some imgSingle] 4 4 1)) ∧
    ∀ idx ∈ List.map Frame.index
        (processGeneratedFrames (fun _ _ => []) [some imgSingle] 4 4 1),
      idx < ([some imgSingle] : List (Option Image)).length :=
  frame_indices_subsequence (fun _ _ => []) [some imgSingle] 4 4 1 (by decide)

/-- RGBA components of the `i`-th pixel of a flat buffer, read at offsets
`4i .. 4i+3` as the keying loop does. -/
def pixelAt (l : List ℕ) (i : ℕ) : Option Pixel :=
  match l.drop (4 * i) with
  | r :: g :: b :: a :: _ => some ⟨r, g, b, a⟩
  | _ => none

lemma magentaKey_cons4 (r g b a : ℕ) (l : List ℕ) :
    magentaKey (r :: g :: b :: a :: l) =
      if a < 128 then 255 :: 0 :: 255 :: 255 :: magentaKey l
      else r :: g :: b :: 255 :: magentaKey l := rfl

lemma pixelAt_cons4 (x0 x1 x2 x3 : ℕ) (l : List ℕ) (i : ℕ) :
    pixelAt (x0 :: x1 :: x2 :: x3 :: l) (i + 1) = pixelAt l i := by
  unfold pixelAt
  rw [show 4 * (i + 1) = 4 + 4 * i from by ring, ← List.drop_drop]
  rfl

lemma pixelAt_short (l : List ℕ) (i : ℕ) (h : l.length < 4) :
    pixelAt l (i + 1) = none := by
  unfold pixelAt
  rw [List.drop_eq_nil_iff.mpr (by omega : l.length ≤ 4 * (i + 1))]

/-- C1: for every frame buffer handed to GIF encoding, the chroma-keying
transform maps the `i`-th pixel to `(255, 0, 255, 255)` when its alpha is
below 128, and to its original RGB with alpha forced to 255 when its alpha
is at least 128 and all RGB channels lie in `[0, 240)`. -/
theorem gif_chroma_key_pixel (buf : List ℕ) (i : ℕ) (r g b a : ℕ)
    (h : pixelAt buf i = some ⟨r, g, b, a⟩) :
    (a < 128 → pixelAt (magentaKey buf) i = some ⟨255, 0, 255, 255⟩) ∧
    (128 ≤ a → r < 240 → g < 240 → b < 240 →
      pixelAt (magentaKey buf) i = some ⟨r, g, b, 255⟩) := by
  induction i generalizing buf with
  | zero =>
    match buf with
    | [] => exact absurd h (by simp [pixelAt])
    | [x0] => exact absurd h (by simp [pixelAt])
    | [x0, x1] => exact absurd h (by simp [pixelAt])
    | [x0, x1, x2] => exact absurd h (by simp [pixelAt])
    | x0 :: x1 :: x2 :: x3 :: rest =>
      have hx : x0 = r ∧ x1 = g ∧ x2 = b ∧ x3 = a := by
        simp [pixelAt] at h
        exact ⟨h.1, h.2.1, h.2.2.1, h.2.2.2⟩
      obtain ⟨rfl, rfl, rfl, rfl⟩ := hx
      constructor
      · intro ha
        rw [magentaKey_cons4, if_pos ha]
        simp [pixelAt]
      · intro ha hr hg hb
        rw [magentaKey_cons4, if_neg (by omega : ¬ x3 < 128)]
        simp [pixelAt]
  | succ i ih =>
    match buf with
    | [] => exact absurd h (by simp [pixelAt])
    | [x0] => exact absurd h (pixelAt_short [x0] i (by simp) ▸ by simp)
    | [x0, x1] => exact absurd h (pixelAt_short [x0, x1] i (by simp) ▸ by simp)
    | [x0, x1, x2] => exact absurd h (pixelAt_short [x0, x1, x2] i (by simp) ▸ by simp)
    | x0 :: x1 :: x2 :: x3 :: rest =>
      rw [pixelAt_cons4] at h
      have hrec := ih rest h
      by_cases hx3 : x3 < 128
      · rw [magentaKey_cons4, if_pos hx3, pixelAt_cons4]
        exact hrec
      · rw [magentaKey_cons4, if_neg hx3, pixelAt_cons4]
        exact hrec

/-- C1 (witness): the keying cases evaluated on a concrete two-pixel
buffer, at the opaque first pixel. -/
theorem gif_chroma_key_pixel_witness :
    pixelAt [10, 20, 30, 200, 1, 2, 3, 50] 0 = some ⟨10, 20, 30, 200⟩ ∧
    ((200 < 128 →
        pixelAt (magentaKey [10, 20, 30, 200, 1, 2, 3, 50]) 0 = some ⟨255, 0, 255, 255⟩) ∧
     (128 ≤ 200 → 10 < 240 → 20 < 240 → 30 < 240 →
        pixelAt (magentaKey [10, 20, 30, 200, 1, 2, 3, 50]) 0 = some ⟨10, 20, 30, 255⟩)) :=
  ⟨by decide, gif_chroma_key_pixel [10, 20, 30, 200, 1, 2, 3, 50] 0 10 20 30 200 (by decide)⟩

/-- C6 (counterexample): `createZip` does NOT fail on an empty frame
sequence — it succeeds and produces an (empty) archive. -/
theorem empty_zip_succeeds : isErr (createZip ([] : List Frame)) = false := rfl

/-- C6 (amended): on an empty NormalizedFrame sequence, APNG encoding
fails with an explicit error and GIF encoding fails (the configuration
access `frames[0]` throws), but ZIP encoding succeeds and produces an
empty archive with no frame entries. -/
theorem empty_sequence_encoders (fps : ℚ) :
    createApng [] fps = Except.error "No frames to encode" ∧
    (createGif [] fps).1 = Except.error "TypeError: frames.0 is undefined" ∧
    createZip ([] : List Frame) = Except.ok [] :=
  ⟨rfl, rfl, rfl⟩

lemma keyLoop_preserves (orig : List ℕ) : ∀ (newB : List ℕ) (i : ℕ),
    (keyLoop orig newB i).1 = orig := by
  have hfuel : ∀ (fuel : ℕ) (newB : List ℕ) (i : ℕ), orig.length - i ≤ fuel →
      (keyLoop orig newB i).1 = orig := by
    intro fuel
    induction fuel with
    | zero =>
      intro newB i h
      rw [keyLoop]
      have hni : ¬ i < orig.length := by omega
      rw [if_neg hni]
    | succ fuel ih =>
      intro newB i h
      rw [keyLoop]
      by_cases hi : i < orig.length
      · rw [if_pos hi]
        exact ih _ _ (by omega)
      · rw [if_neg hi]
  intro newB i
  exact hfuel orig.length newB i (by omega)

lemma gifFrameStep_fst (f : Frame) : (gifFrameStep f).1 = f := by
  unfold gifFrameStep
  split
  · simp only [keyLoop_preserves]
  · rfl

lemma map_gifFrameStep_fst (fs : List Frame) :
    fs.map (fun f => (gifFrameStep f).1) = fs := by
  induction fs with
  | nil => rfl
  | cons a l ih => rw [List.map_cons, gifFrameStep_fst, ih]

/-- C9: the GIF chroma-keying loop writes only to the freshly allocated
buffer, never through the view over the frame's `pixelBuffer`: after
`createGif` runs, the frame store is identical to what it was before, so
`createApng` over the same frame set yields the same artifact whether it
runs before or after GIF encoding. -/
theorem gif_leaves_buffers_unchanged (frames : List Frame) (fps fps2 : ℚ) :
    (createGif frames fps).2 = frames ∧
    createApng ((createGif frames fps).2) fps2 = createApng frames fps2 := by
  have h2 : (createGif frames fps).2 = frames := by
    cases frames with
    | nil => rfl
    | cons f0 rest =>
      show (createGifRun (f0 :: rest)).1 = f0 :: rest
      unfold createGifRun
      exact map_gifFrameStep_fst (f0 :: rest)
  exact ⟨h2, by rw [h2]⟩

lemma firstError_eq_none {ε : Type} (gen : ℕ → Except ε String) :
    ∀ (batch : List ℕ), (∀ j ∈ batch, isErr (gen j) = false) →
      firstError gen batch = none := by
  intro batch
  induction batch with
  | nil => intro _; rfl
  | cons j rest ih =>
    intro h
    unfold firstError
    cases hg : gen j with
    | error e =>
      exfalso
      have := h j (List.mem_cons_self j rest)
      rw [hg] at this
      exact absurd this (by simp [isErr])
    | ok u =>
      exact ih (fun q hq => h q (List.mem_cons_of_mem j hq))

lemma firstError_none_forall {ε : Type} (gen : ℕ → Except ε String) :
    ∀ (batch : List ℕ), firstError gen batch = none →
      ∀ j ∈ batch, isErr (gen j) = false := by
  intro batch
  induction batch with
  | nil => intro _ j hj; exact absurd hj (List.not_mem_nil j)
  | cons q rest ih =>
    intro h j hj
    unfold firstError at h
    cases hg : gen q with
    | error e => rw [hg] at h; exact absurd h (by simp)
    | ok u =>
      rw [hg] at h
      rcases List.mem_cons.mp hj with rfl | hmem
      · rw [hg]; rfl
      · exact ih h j hmem

lemma genLoop_ok_all_succeed {ε : Type} (gen : ℕ → Except ε String) (aborted : ℕ → Bool) :
    ∀ (bs : List (List ℕ)) (t : ℕ) (acc : List String) (issued : List ℕ)
      (urls : List String),
      (genLoop gen aborted bs t acc issued).1 = GenOutcome.ok urls →
      ∀ b ∈ bs, ∀ j ∈ b, isErr (gen j) = false := by
  intro bs
  induction bs with
  | nil => intro t acc issued urls _ b hb; exact absurd hb (List.not_mem_nil b)
  | cons batch rest ih =>
    intro t acc issued urls h b hb
    unfold genLoop at h
    by_cases ha : aborted t
    · rw [if_pos ha] at h; exact absurd h (by simp)
    · rw [if_neg ha] at h
      cases hfe : firstError gen batch with
      | some e => rw [hfe] at h; exact absurd h (by simp)
      | none =>
        rw [hfe] at h
        by_cases ha2 : aborted (t + 1)
        · rw [if_pos ha2] at h; exact absurd h (by simp)
        · rw [if_neg ha2] at h
          rcases List.mem_cons.mp hb with rfl | hmem
          · exact firstError_none_forall gen b hfe
          · exact ih (t + 2) (acc ++ batchUrls gen batch) (issued ++ batch) urls h b hmem

lemma mem_batchesOf {count j : ℕ} (h : j < count) :
    ∃ b ∈ batchesOf count, j ∈ b := by
  refine ⟨List.range' (3 * (j / 3)) (min (3 * (j / 3) + 3) count - 3 * (j / 3)), ?_, ?_⟩
  · unfold batchesOf
    exact List.mem_map.mpr ⟨j / 3, List.mem_range.mpr (by omega), rfl⟩
  · rw [List.mem_range'_1]
    omega

/-- C7: if any single per-frame generation request fails, the whole
multi-frame generation fails — it never returns a (partial) URL list. -/
theorem generation_no_partial_success {ε : Type} (gen : ℕ → Except ε String)
    (count : ℕ) (aborted : ℕ → Bool)
    (h : ∃ j, j < count ∧ isErr (gen j) = true) :
    GenOutcome.isOk (generateAnimationFrames gen count aborted).1 = false := by
  obtain ⟨j, hj, hje⟩ := h
  cases hres : (generateAnimationFrames gen count aborted).1 with
  | ok urls =>
    exfalso
    obtain ⟨b, hb, hjb⟩ := mem_batchesOf hj
    have hall := genLoop_ok_all_succeed gen aborted (batchesOf count) 0 [] [] urls
      (by rw [show genLoop gen aborted (batchesOf count) 0 [] [] =
            generateAnimationFrames gen count aborted from rfl, hres])
      b hb j hjb
    rw [hall] at hje
    exact absurd hje (by simp)
  | cancelled => rfl
  | failed e => rfl

/-- C7 (witness): a concrete 4-frame run in which request 2 fails is not
a success. -/
theorem generation_no_partial_success_witness :
    GenOutcome.isOk
      (generateAnimationFrames
        (fun j => if j = 2 then Except.error (0 : ℕ) else Except.ok "u")
        4 (fun _ => false)).1 = false :=
  generation_no_partial_success
    (fun j => if j = 2 then Except.error (0 : ℕ) else Except.ok "u")
    4 (fun _ => false) ⟨2, by decide, by decide⟩

lemma batchesOf_getElem (count k : ℕ) (h : 3 * k + 3 ≤ count) :
    (batchesOf count)[k]? = some (List.range' (3 * k) 3) := by
  unfold batchesOf
  rw [List.getElem?_map, List.getElem?_range (by omega : k < (count + 2) / 3)]
  show some (List.range' (3 * k) (min (3 * k + 3) count - 3 * k)) =
    some (List.range' (3 * k) 3)
  have hm3 : min (3 * k + 3) count - 3 * k = 3 := by omega
  rw [hm3]

lemma batchesOf_take_flatten (count : ℕ) :
    ∀ (k : ℕ), 3 * k ≤ count →
      ((batchesOf count).take k).flatten = List.range (3 * k) := by
  intro k
  induction k with
  | zero => intro _; rfl
  | succ k ih =>
    intro h
    rw [List.take_succ, batchesOf_getElem count k (by omega), List.flatten_append,
      ih (by omega)]
    show List.range (3 * k) ++ (List.range' (3 * k) 3 ++ []) = List.range (3 * (k + 1))
    have happ := List.range'_append_1 0 (3 * k) 3
    rw [Nat.zero_add] at happ
    rw [List.append_nil, List.range_eq_range', List.range_eq_range', happ]
    congr 1
    omega

lemma genLoop_cancel {ε : Type} (gen : ℕ → Except ε String) (aborted : ℕ → Bool) :
    ∀ (m : ℕ) (bs : List (List ℕ)) (t : ℕ) (acc : List String) (issued : List ℕ),
      (∀ s, s < 2 * m → aborted (t + s) = false) →
      aborted (t + 2 * m) = true →
      m < bs.length →
      (∀ b ∈ bs.take m, ∀ j ∈ b, isErr (gen j) = false) →
      genLoop gen aborted bs t acc issued =
        (GenOutcome.cancelled, issued ++ (bs.take m).flatten) := by
  intro m
  induction m with
  | zero =>
    intro bs t acc issued h1 h2 hm hok
    match bs, hm with
    | batch :: rest, _ =>
      unfold genLoop
      rw [if_pos (by simpa using h2), List.take_zero, List.flatten_nil,
        List.append_nil]
  | succ m ih =>
    intro bs t acc issued h1 h2 hm hok
    match bs, hm with
    | batch :: rest, hm2 =>
      have ha0 : aborted t = false := by simpa using h1 0 (by omega)
      have ha1 : aborted (t + 1) = false := by simpa using h1 1 (by omega)
      have hmrest : m < rest.length := by
        simp only [List.length_cons] at hm2
        omega
      unfold genLoop
      rw [if_neg (by simp [ha0]),
        firstError_eq_none gen batch
          (hok batch (by simp [List.take_succ_cons])),
        if_neg (by simp [ha1])]
      rw [ih rest (t + 2) (acc ++ batchUrls gen batch) (issued ++ batch)
        (fun s hs => by
          have := h1 (s + 2) (by omega)
          rwa [show t + (s + 2) = t + 2 + s from by omega] at this)
        (by
          have := h2
          rwa [show t + 2 * (m + 1) = t + 2 + 2 * m from by omega] at this)
        hmrest
        (fun b hb j hj => hok b (by simp [List.take_succ_cons, hb]) j hj)]
      rw [List.take_succ_cons, List.flatten_cons, List.append_assoc]

lemma genLoop_cancel_post {ε : Type} (gen : ℕ → Except ε String) (aborted : ℕ → Bool) :
    ∀ (m : ℕ) (bs : List (List ℕ)) (t : ℕ) (acc : List String) (issued : List ℕ),
      (∀ s, s < 2 * m + 1 → aborted (t + s) = false) →
      aborted (t + (2 * m + 1)) = true →
      m < bs.length →
      (∀ b ∈ bs.take (m + 1), ∀ j ∈ b, isErr (gen j) = false) →
      genLoop gen aborted bs t acc issued =
        (GenOutcome.cancelled, issued ++ (bs.take (m + 1)).flatten) := by
  intro m
  induction m with
  | zero =>
    intro bs t acc issued h1 h2 hm hok
    match bs, hm with
    | batch :: rest, _ =>
      have ha0 : aborted t = false := by simpa using h1 0 (by omega)
      unfold genLoop
      rw [if_neg (by simp [ha0]),
        firstError_eq_none gen batch
          (hok batch (by simp [List.take_succ_cons])),
        if_pos (by simpa using h2)]
      rw [List.take_succ_cons, List.take_zero, List.flatten_cons, List.flatten_nil,
        List.append_nil]
  | succ m ih =>
    intro bs t acc issued h1 h2 hm hok
    match bs, hm with
    | batch :: rest, hm2 =>
      have ha0 : aborted t = false := by simpa using h1 0 (by omega)
      have ha1 : aborted (t + 1) = false := by simpa using h1 1 (by omega)
      have hmrest : m < rest.length := by
        simp only [List.length_cons] at hm2
        omega
      unfold genLoop
      rw [if_neg (by simp [ha0]),
        firstError_eq_none gen batch
          (hok batch (by simp [List.take_succ_cons])),
        if_neg (by simp [ha1])]
      rw [ih rest (t + 2) (acc ++ batchUrls gen batch) (issued ++ batch)
        (fun s hs => by
          have := h1 (s + 2) (by omega)
          rwa [show t + (s + 2) = t + 2 + s from by omega] at this)
        (by
          have := h2
          rwa [show t + (2 * (m + 1) + 1) = t + 2 + (2 * m + 1) from by omega] at this)
        hmrest
        (fun b hb j hj => hok b (by simp [List.take_succ_cons, hb]) j hj)]
      rw [List.take_succ_cons, List.flatten_cons, List.append_assoc]

lemma batchesOf_getElem_lt (count k : ℕ) (h : 3 * k < count) :
    (batchesOf count)[k]? =
      some (List.range' (3 * k) (min (3 * k + 3) count - 3 * k)) := by
  unfold batchesOf
  rw [List.getElem?_map, List.getElem?_range (by omega : k < (count + 2) / 3)]
  rfl

lemma batchesOf_take_flatten_last (count k : ℕ) (h : 3 * k < count) :
    ((batchesOf count).take (k + 1)).flatten = List.range (min (3 * k + 3) count) := by
  rw [List.take_succ, batchesOf_getElem_lt count k h, List.flatten_append,
    batchesOf_take_flatten count k (by omega)]
  show List.range (3 * k) ++ (List.range' (3 * k) (min (3 * k + 3) count - 3 * k) ++ []) =
    List.range (min (3 * k + 3) count)
  have happ := List.range'_append_1 0 (3 * k) (min (3 * k + 3) count - 3 * k)
  rw [Nat.zero_add] at happ
  rw [List.append_nil, List.range_eq_range', List.range_eq_range', happ]
  congr 1
  omega

/-- Number of generation requests issued before poll `t` of the
cancellation token is reached: poll `2k` precedes batch `k` (the `3k`
requests of batches `0..k-1` have been issued) and poll `2k + 1` follows
batch `k`'s settlement (its requests, up to index `min (3k + 3) count`,
have also been issued). -/
def issuedBefore (t count : ℕ) : ℕ :=
  if t % 2 = 0 then 3 * (t / 2) else min (3 * (t / 2) + 3) count

/-- C8: the token is polled at every batch boundary — poll `2k` before
batch `k` starts and poll `2k + 1` after it settles.  If the token is
first observed set at boundary poll `t` (all earlier polls unset, all
previously issued requests succeeded, and the poll is reached because
batch `t / 2` exists), the generator terminates with the distinguished
cancellation outcome — a different constructor from every failure
outcome — and the issued request indices are exactly
`0 .. issuedBefore t count - 1`: no request of any later batch is ever
issued.  This covers both a pre-batch observation (even `t`) and the
common mid-batch cancellation first observed at the after-settle poll
(odd `t`). -/
theorem generation_cancelled_at_batch_boundary {ε : Type}
    (gen : ℕ → Except ε String) (count t : ℕ) (aborted : ℕ → Bool)
    (h1 : ∀ s, s < t → aborted s = false)
    (h2 : aborted t = true)
    (h3 : ∀ j, j < issuedBefore t count → isErr (gen j) = false)
    (h4 : 3 * (t / 2) < count) :
    generateAnimationFrames gen count aborted =
      (GenOutcome.cancelled, List.range (issuedBefore t count)) ∧
    ∀ e : ε, (GenOutcome.cancelled : GenOutcome ε) ≠ GenOutcome.failed e := by
  constructor
  · unfold generateAnimationFrames
    by_cases hpar : t % 2 = 0
    · have hk : t = 2 * (t / 2) := by omega
      have hib : issuedBefore t count = 3 * (t / 2) := by
        unfold issuedBefore
        rw [if_pos hpar]
      rw [genLoop_cancel gen aborted (t / 2) (batchesOf count) 0 [] []
        (fun s hs => by
          rw [Nat.zero_add]
          exact h1 s (by omega))
        (by rw [Nat.zero_add, ← hk]; exact h2)
        (by
          unfold batchesOf
          rw [List.length_map, List.length_range]
          omega)
        (fun b hb j hj => by
          apply h3
          have hmem : j ∈ ((batchesOf count).take (t / 2)).flatten :=
            List.mem_flatten.mpr ⟨b, hb, hj⟩
          rw [batchesOf_take_flatten count (t / 2) (by omega)] at hmem
          rw [hib]
          exact List.mem_range.mp hmem)]
      rw [batchesOf_take_flatten count (t / 2) (by omega), hib]
      simp
    · have hk : t = 2 * (t / 2) + 1 := by omega
      have hib : issuedBefore t count = min (3 * (t / 2) + 3) count := by
        unfold issuedBefore
        rw [if_neg hpar]
      rw [genLoop_cancel_post gen aborted (t / 2) (batchesOf count) 0 [] []
        (fun s hs => by
          rw [Nat.zero_add]
          exact h1 s (by omega))
        (by rw [Nat.zero_add, ← hk]; exact h2)
        (by
          unfold batchesOf
          rw [List.length_map, List.length_range]
          omega)
        (fun b hb j hj => by
          apply h3
          have hmem : j ∈ ((batchesOf count).take (t / 2 + 1)).flatten :=
            List.mem_flatten.mpr ⟨b, hb, hj⟩
          rw [batchesOf_take_flatten_last count (t / 2) (by omega)] at hmem
          rw [hib]
          exact List.mem_range.mp hmem)]
      rw [batchesOf_take_flatten_last count (t / 2) (by omega), hib]
      simp
  · intro e h
    exact GenOutcome.noConfusion h

/-- A generator whose every request succeeds, used as a concrete witness. -/
def genAllOk : ℕ → Except ℕ String := fun _ => Except.ok "u"

/-- A cancellation token that is set from its second poll on — i.e. it
became set while batch 0's requests were in flight and is first observed
at the after-settle poll `t = 1` — used as a concrete witness. -/
def abortFromPoll1 : ℕ → Bool := fun t => decide (1 ≤ t)

/-- C8 (witness): the end-to-end scenario of the spec — a 6-frame,
2-batch run whose token is set mid-batch and first observed at the poll
after batch 0 settles is cancelled with exactly the first batch's three
requests issued; batch 1 never starts. -/
theorem generation_cancelled_witness :
    generateAnimationFrames genAllOk 6 abortFromPoll1 =
      (GenOutcome.cancelled, List.range 3) ∧
    ∀ e : ℕ, (GenOutcome.cancelled : GenOutcome ℕ) ≠ GenOutcome.failed e :=
  generation_cancelled_at_batch_boundary genAllOk 6 1 abortFromPoll1
    (fun s hs => by
      unfold abortFromPoll1
      simp only [decide_eq_false_iff_not]
      omega)
    (by decide)
    (fun j hj => rfl)
    (by decide)

end Toonmotion
